import Mathlib

set_option autoImplicit false
set_option maxHeartbeats 1000000

/-!
Shallow embedding of the epimetheus metrics exporter (`src/main.rs`) and
verification of its specification.  The per-cycle pipeline — source fetching with
content-type detection, the JSON/YAML/CSV decoders, the key-flattening algorithm
and the gauge-registry reconciler — is translated into executable Lean
definitions; a Rust `panic!`/`unwrap` failure is modelled as an `Option.none`
result that propagates outwards (a panic terminates the whole process).
-/

namespace Epimetheus

/-- Model of an IEEE-754 `f64` as it flows through the code paths under
verification.  Finite values are carried as exact rationals: every claim under
verification only involves decimal literals on which decimal-to-double rounding
is the identity, so exact arithmetic is a faithful model of the values the
program computes.  The three non-finite values that Rust `f64` string parsing
can produce are represented explicitly, because `serde_json::Number::from_f64`
branches on finiteness. -/
inductive F64 where
  | finite (q : ℚ)
  | nan
  | inf
  | neginf
deriving DecidableEq, Repr

/-- Rust `f64::is_finite`. -/
def F64.is_finite : F64 → Bool
  | .finite _ => true
  | _ => false

/-- Model of `serde_json::Number` (default build): an integer variant
(`i64`/`u64`, width not claim-relevant and left unbounded) or a finite double. -/
inductive JNumber where
  | i (n : ℤ)
  | f (x : F64)
deriving DecidableEq, Repr

/-- Model of `serde_json::Number::as_f64`: in the default build every stored number has a
(lossy for big ints, exact here) `f64` image, so this is always `some`.  The
`Option` is kept because the source matches on it (`if let Some(n) = num.as_f64()`). -/
def JNumber.as_f64 : JNumber → Option F64
  | .i n => some (.finite (n : ℚ))
  | .f x => some x

/-- Model of `serde_json::Number::from_f64`: `None` exactly on non-finite doubles. -/
def jnumber_from_f64 (x : F64) : Option JNumber :=
  if x.is_finite then some (.f x) else none

/-- Model of `serde_json::Value` (the generic tree both JSON and YAML decode
into).  Objects are association lists in document order. -/
inductive Json where
  | null
  | bool (b : Bool)
  | num (n : JNumber)
  | str (s : String)
  | arr (xs : List Json)
  | obj (kvs : List (String × Json))
deriving Repr

/- Decidable equality for `Json` (the nested `List` occurrences need a manual
mutual definition). -/
mutual
def Json.beq : Json → Json → Bool
  | .null, .null => true
  | .bool a, .bool b => a = b
  | .num a, .num b => a = b
  | .str a, .str b => a = b
  | .arr a, .arr b => Json.beqList a b
  | .obj a, .obj b => Json.beqObj a b
  | _, _ => false

def Json.beqList : List Json → List Json → Bool
  | [], [] => true
  | a :: as_, b :: bs => Json.beq a b && Json.beqList as_ bs
  | _, _ => false

def Json.beqObj : List (String × Json) → List (String × Json) → Bool
  | [], [] => true
  | (ka, va) :: as_, (kb, vb) :: bs => ka = kb && Json.beq va vb && Json.beqObj as_ bs
  | _, _ => false
end

mutual
theorem Json.beq_iff : ∀ a b : Json, Json.beq a b = true ↔ a = b
  | .null, b => by cases b <;> simp [Json.beq]
  | .bool x, b => by cases b <;> simp [Json.beq]
  | .num x, b => by cases b <;> simp [Json.beq]
  | .str x, b => by cases b <;> simp [Json.beq]
  | .arr xs, b => by
      cases b <;> simp [Json.beq]
      exact Json.beqList_iff xs _
  | .obj kvs, b => by
      cases b <;> simp [Json.beq]
      exact Json.beqObj_iff kvs _

theorem Json.beqList_iff : ∀ a b : List Json, Json.beqList a b = true ↔ a = b
  | [], b => by cases b <;> simp [Json.beqList]
  | x :: xs, b => by
      cases b with
      | nil => simp [Json.beqList]
      | cons y ys =>
          simp [Json.beqList, Json.beq_iff x y, Json.beqList_iff xs ys]

theorem Json.beqObj_iff : ∀ a b : List (String × Json), Json.beqObj a b = true ↔ a = b
  | [], b => by cases b <;> simp [Json.beqObj]
  | (k, v) :: xs, b => by
      cases b with
      | nil => simp [Json.beqObj]
      | cons y ys =>
          cases y with
          | mk k2 v2 =>
              simp [Json.beqObj, Json.beq_iff v v2, Json.beqObj_iff xs ys, and_assoc]
end

instance : DecidableEq Json := fun a b =>
  decidable_of_iff (Json.beq a b = true) (Json.beq_iff a b)

/-! ## Rust `f64` string parsing

`str::parse::<f64>` follows the grammar from the standard library docs:
an optional sign, then case-insensitively `inf`, `infinity`, `nan`, or a
decimal significand (`Digits '.'? Digits?` or `'.' Digits`) with an optional
`e`/`E` exponent; the whole string must be consumed.  Finite results are kept
as exact rationals (see `F64`). -/

/-- Numeric value of a digit string. -/
def digitsVal (ds : List Char) : ℕ :=
  ds.foldl (fun a c => a * 10 + (c.toNat - 48)) 0

/-- Parse an optionally-signed run of digits (the exponent part). -/
def parseSignedDigits (cs : List Char) : Option (ℤ × List Char) :=
  match cs with
  | '+' :: r =>
    let (ds, r2) := r.span Char.isDigit
    if ds.isEmpty then none else some ((digitsVal ds : ℤ), r2)
  | '-' :: r =>
    let (ds, r2) := r.span Char.isDigit
    if ds.isEmpty then none else some (-(digitsVal ds : ℤ), r2)
  | r =>
    let (ds, r2) := r.span Char.isDigit
    if ds.isEmpty then none else some ((digitsVal ds : ℤ), r2)

/-- Parse the decimal significand `Digits '.'? Digits?` / `'.' Digits`. -/
def parseMantissa (cs : List Char) : Option (ℚ × List Char) :=
  let (ip, r1) := cs.span Char.isDigit
  match r1 with
  | '.' :: r2 =>
    let (fp, r3) := r2.span Char.isDigit
    if ip.isEmpty && fp.isEmpty then none
    else some ((digitsVal ip : ℚ) + (digitsVal fp : ℚ) / ((10 : ℚ) ^ fp.length), r3)
  | _ => if ip.isEmpty then none else some ((digitsVal ip : ℚ), r1)

/-- Parse an unsigned finite float: significand plus optional exponent, whole
input consumed. -/
def parseFinite (cs : List Char) : Option ℚ :=
  match parseMantissa cs with
  | none => none
  | some (m, rest) =>
    match rest with
    | [] => some m
    | c :: r2 =>
      if c = 'e' ∨ c = 'E' then
        match parseSignedDigits r2 with
        | some (e, []) => some (m * (10 : ℚ) ^ e)
        | _ => none
      else none

/-- Rust `str::parse::<f64>` (`f64::from_str`). -/
def parse_f64 (s : String) : Option F64 :=
  let (neg, cs) :=
    match s.data with
    | '+' :: r => (false, r)
    | '-' :: r => (true, r)
    | r => (false, r)
  let lower := cs.map Char.toLower
  if lower = ['i', 'n', 'f'] ∨ lower = ['i', 'n', 'f', 'i', 'n', 'i', 't', 'y'] then
    some (if neg then .neginf else .inf)
  else if lower = ['n', 'a', 'n'] then
    some .nan
  else
    match parseFinite cs with
    | some q => some (.finite (if neg then -q else q))
    | none => none

/-! ## Association lists standing in for `HashMap` -/

/-- Rust `HashMap::insert` semantics on an association list: overwrite in place if
the key is present, append otherwise. -/
def insertKV {α : Type} : List (String × α) → String → α → List (String × α)
  | [], k, v => [(k, v)]
  | (k0, v0) :: rest, k, v =>
    if k0 = k then (k, v) :: rest else (k0, v0) :: insertKV rest k v

/-- Rust `HashMap::get` semantics on an association list. -/
def lookupKV {α : Type} (k : String) : List (String × α) → Option α
  | [] => none
  | (k0, v0) :: rest => if k0 = k then some v0 else lookupKV k rest

/-! ## The flattening algorithm (`flatten_json` / `flatten_json_inner`) -/

mutual
/-- Function `flatten_json_inner` from the source: objects recurse with the child key
double-underscore-joined onto a non-empty running prefix (bare at the top
level), arrays always join the index with a double underscore, and every other
node is a leaf inserted at the running prefix. -/
def flatten_json_inner : Json → String → List (String × Json) → List (String × Json)
  | .obj kvs, pfx, m => flattenFields kvs pfx m
  | .arr xs, pfx, m => flattenItems xs pfx 0 m
  | v, pfx, m => insertKV m pfx v

/-- The `for (k, v) in obj` loop of `flatten_json_inner`. -/
def flattenFields : List (String × Json) → String → List (String × Json) → List (String × Json)
  | [], _, m => m
  | (k, v) :: rest, pfx, m =>
    flattenFields rest pfx
      (flatten_json_inner v (if pfx.isEmpty then k else pfx ++ "__" ++ k) m)

/-- The `for (i, v) in arr.iter().enumerate()` loop of `flatten_json_inner`. -/
def flattenItems : List Json → String → ℕ → List (String × Json) → List (String × Json)
  | [], _, _, m => m
  | v :: rest, pfx, i, m =>
    flattenItems rest pfx (i + 1) (flatten_json_inner v (pfx ++ "__" ++ toString i) m)
end

/-- Function `flatten_json` from the source: run the traversal from an empty prefix into
a fresh empty map. -/
def flatten_json (v : Json) : List (String × Json) :=
  flatten_json_inner v "" []

/-! ## The gauge map, the registry, and the reconciler
(`update_metrics_from_map`)

A Rust panic is modelled as `none`: `Gauge::new(..).unwrap()` panics when the
`prometheus` crate rejects the gauge options (invalid metric name or empty help
string), and `registry.register(..).unwrap()` panics when a collector with the
same fully-qualified name is already registered. -/

/-- First character of a valid Prometheus metric name: `[a-zA-Z_:]`
(the `prometheus` crate's name check, applied by `Gauge::new`). -/
def validMetricChar1 (c : Char) : Bool :=
  c.isAlpha || c = '_' || c = ':'

/-- Later characters of a valid Prometheus metric name: `[a-zA-Z0-9_:]`. -/
def validMetricChar (c : Char) : Bool :=
  c.isAlphanum || c = '_' || c = ':'

/-- Validity check on a metric name performed by `Gauge::new`. -/
def validMetricName (s : String) : Bool :=
  match s.data with
  | [] => false
  | c :: cs => validMetricChar1 c && cs.all validMetricChar

/-- Condition under which `Gauge::new(name, help)` succeeds iff the name is a valid metric name and
the help string is non-empty. -/
def gauge_new_ok (name helpText : String) : Bool :=
  validMetricName name && !helpText.isEmpty

/-- The shared state the reconciler mutates: the gauge map
(`Arc<RwLock<HashMap<String, Gauge>>>`, here name ↦ current value) and the
`prometheus::Registry` (here the list of registered collector names). -/
structure MetricsState where
  gauges : List (String × F64)
  registry : List String
deriving DecidableEq, Repr

/-- The body of `metrics.entry(metric_name).or_insert_with(..)` followed by
`gauge.set(n)` in `update_metrics_from_map`: find-or-create the gauge, then
overwrite its value.  On a miss, `Gauge::new(metric_name, key).unwrap()` and
`registry.register(..).unwrap()` run; either `unwrap` firing is a panic
(`none`). -/
def setGauge (st : MetricsState) (metric_name helpKey : String) (n : F64) :
    Option MetricsState :=
  if (st.gauges.map Prod.fst).contains metric_name then
    some { st with gauges := insertKV st.gauges metric_name n }
  else if gauge_new_ok metric_name helpKey && !st.registry.contains metric_name then
    some { gauges := st.gauges ++ [(metric_name, n)],
           registry := st.registry ++ [metric_name] }
  else
    none

/-- One iteration of the `for (key, value) in obj` loop of
`update_metrics_from_map`: skip ignored keys; numbers go straight through
`as_f64`; strings go through `parse::<f64>` with a warning (and no count) on
failure; any other value kind is skipped with a warning. -/
def umfm_step (key : String) (value : Json) (ignore_keys : List String)
    (metric_pfx : String) (st : MetricsState) : Option (ℤ × MetricsState) :=
  if ignore_keys.contains key then some (0, st)
  else
    let metric_name := metric_pfx ++ key
    match value with
    | .num num =>
      match num.as_f64 with
      | some n => (setGauge st metric_name key n).map (fun st2 => (1, st2))
      | none => some (0, st)
    | .str s =>
      match parse_f64 s with
      | some n => (setGauge st metric_name key n).map (fun st2 => (1, st2))
      | none => some (0, st)
    | _ => some (0, st)

/-- Function `update_metrics_from_map`: walk the flat map, stepping once per
entry; find-or-create the gauge under `metric_prefix + key` and overwrite its
value; return the number of keys successfully turned into gauge updates.
`none` models a panic. -/
def update_metrics_from_map (obj : List (String × Json)) (ignore_keys : List String)
    (metric_pfx : String) (st : MetricsState) : Option (ℤ × MetricsState) :=
  match obj with
  | [] => some (0, st)
  | (key, value) :: rest =>
    match umfm_step key value ignore_keys metric_pfx st with
    | none => none
    | some (c, st2) =>
      match update_metrics_from_map rest ignore_keys metric_pfx st2 with
      | none => none
      | some (c2, st3) => some (c + c2, st3)

/-! ## The CSV decoder (`process_csv`) -/

/-- Split a char list on a separator character (the splitting core of
`str::split`). -/
def splitOnChar (sep : Char) : List Char → List (List Char)
  | [] => [[]]
  | c :: rest =>
    if c = sep then [] :: splitOnChar sep rest
    else
      match splitOnChar sep rest with
      | g :: gs => (c :: g) :: gs
      | [] => [[c]]

/-- Records as seen by the `csv` crate's reader with default settings on the
unquoted inputs under verification: lines (accepting CRLF), empty lines
skipped. Field quoting is not modelled; no claim depends on it. -/
def csvLines (s : String) : List String :=
  (((splitOnChar '\n' s.data).map fun l =>
      if l.getLast? = some '\r' then l.dropLast else l).filter
    fun l => !l.isEmpty).map String.mk

/-- Fields of one unquoted CSV record. -/
def csvFields (line : String) : List String :=
  (splitOnChar ',' line.data).map String.mk

/-- Outcome of the record-handling part of `process_csv`: `rowErr` covers
every way the code reaches its zero-metrics error returns — no header row, no
first data row (`records().next()` is `None`), or a row-read error
(`Some(Err(..))`, in particular the `csv` crate's `UnequalLengths` for a data
row whose field count differs from the header's). -/
inductive CsvDecode where
  | rowErr
  | panicked
  | ok (obj : List (String × Json))
deriving DecidableEq, Repr

/-- The `headers.iter().zip(first_row.iter()).filter_map(..).collect()` of
`process_csv`: pairs are consumed in order into the `HashMap` accumulator; a
cell that fails `parse::<f64>` is silently dropped; a cell that parses is
wrapped through `Number::from_f64(num).unwrap()`, whose `unwrap` panics on a
non-finite parse.  Because `collect` inserts in iteration order, duplicate
headers resolve last-write-wins. -/
def buildCsvObj : List (String × String) → List (String × Json) →
    Option (List (String × Json))
  | [], m => some m
  | (header, cell) :: rest, m =>
    match parse_f64 cell with
    | none => buildCsvObj rest m
    | some x =>
      match jnumber_from_f64 x with
      | none => none
      | some n => buildCsvObj rest (insertKV m header (Json.num n))

/-- The record-handling part of `process_csv` on the list of CSV records: the
first record is the headers; `records().next()` reads only the second record,
so all further records are ignored.  A missing header or first data row, or a
first data row whose field count differs from the header's (the `csv` crate's
default strict `UnequalLengths` check), falls to the `_` arm of the `match`
and produces no metrics. -/
def csvDecodeRows : List String → CsvDecode
  | [] => .rowErr
  | [_] => .rowErr
  | hdr :: row :: _ =>
    if (csvFields row).length = (csvFields hdr).length then
      match buildCsvObj ((csvFields hdr).zip (csvFields row)) [] with
      | none => .panicked
      | some obj => .ok obj
    else .rowErr

/-- Function `process_csv`: decode the first data row against the headers, then hand the
flat map to `update_metrics_from_map`; decode failures contribute zero
metrics.  `none` models a panic. -/
def process_csv (contents : String) (ignore_keys : List String)
    (metric_pfx : String) (st : MetricsState) : Option (ℤ × MetricsState) :=
  match csvDecodeRows (csvLines contents) with
  | .rowErr => some (0, st)
  | .panicked => none
  | .ok obj => update_metrics_from_map obj ignore_keys metric_pfx st

/-! ## The source fetcher (`fetch_url`, `detect_file_type_from_headers`) -/

/-- Model of `str::to_lowercase` (character-wise lowering; identical to Rust on
the ASCII header values under verification). -/
def lowerStr (s : String) : String :=
  String.mk (s.data.map Char.toLower)

/-- Core of the substring test: does `needle` occur in the haystack char
list? -/
def containsSubList (needle : List Char) : List Char → Bool
  | [] => needle.isEmpty
  | c :: rest => needle.isPrefixOf (c :: rest) || containsSubList needle rest

/-- Substring test (`str::contains`). -/
def containsSub (hay needle : String) : Bool :=
  containsSubList needle.data hay.data

def CSV_TYPES : List String := ["text/csv"]
def JSON_TYPES : List String := ["application/json"]
def YAML_TYPES : List String := ["application/yaml", "application/x-yaml", "text/x-yaml"]

/-- The `Content-Type` header of an HTTP response, as
`detect_file_type_from_headers` consumes it: `none` = header absent;
`some none` = header present but `to_str()` fails (non-ASCII value, which the
code replaces with `""` via `unwrap_or`); `some (some s)` = header value `s`. -/
def ContentTypeHeader : Type := Option (Option String)

/-- Function `detect_file_type_from_headers`: lowercase the header value and test the
known substrings, JSON first, then YAML, then CSV; anything else (including a
missing or non-ASCII header) is tagged `"unknown"`. -/
def detect_file_type_from_headers (h : ContentTypeHeader) : String :=
  match h with
  | some v =>
    let content_type := lowerStr (match v with | some s => s | none => "")
    if JSON_TYPES.any (fun t => containsSub content_type t) then "json"
    else if YAML_TYPES.any (fun t => containsSub content_type t) then "yaml"
    else if CSV_TYPES.any (fun t => containsSub content_type t) then "csv"
    else "unknown"
  | none => "unknown"

/-- What the network hands back for one GET request: either a transport-level
failure of `send()`, or a response with a status code, a `Content-Type` header
and a body-read outcome (`none` = `text()` fails). -/
inductive HttpResult where
  | transportErr
  | response (status : ℕ) (contentType : ContentTypeHeader) (body : Option String)

/-- Function `fetch_url`: the call `send().await?` propagates only transport errors (the HTTP
status code is never inspected); on a response, detect the file type from the
headers and read the body, propagating a body-read failure.  `none` models the
returned `Err`. -/
def fetch_url (r : HttpResult) : Option (String × String) :=
  match r with
  | .transportErr => none
  | .response _ contentType body =>
    let file_type := detect_file_type_from_headers contentType
    match body with
    | none => none
    | some content => some (content, file_type)

/-- The URL dispatch test in `update_metrics`: a source is fetched over HTTP
iff it starts with `http://` or `https://`. -/
def is_http_source (s : String) : Bool :=
  "http://".data.isPrefixOf s.data || "https://".data.isPrefixOf s.data

/-! ## The JSON decoder (`process_json`)

`serde_json::from_str::<Value>` is a third-party parser; it is modelled here by
a fuel-indexed recursive-descent parser over the same grammar (objects, arrays,
strings without escape sequences, numbers, `true`/`false`/`null`), which is
faithful on every input the claims exercise.  Integer literals become the
integer `Number` variant, literals with a fraction or exponent become the
(finite) double variant, mirroring serde_json's default build. -/

def skipWs : List Char → List Char
  | c :: rest =>
    if c = ' ' ∨ c = '\n' ∨ c = '\t' ∨ c = '\r' then skipWs rest else c :: rest
  | [] => []

/-- One JSON number literal: `-? Digits ('.' Digits)? ([eE] [+-]? Digits)?`. -/
def parseJsonNumber (cs : List Char) : Option (JNumber × List Char) :=
  let (neg, cs1) := match cs with
    | '-' :: r => (true, r)
    | r => (false, r)
  let (ip, r1) := cs1.span Char.isDigit
  if ip.isEmpty then none
  else
    let (frac, r2) := match r1 with
      | '.' :: rf =>
        let (fp, r3) := rf.span Char.isDigit
        (some fp, r3)
      | _ => (none, r1)
    let (expo, r4) := match r2 with
      | c :: re =>
        if c = 'e' ∨ c = 'E' then
          match parseSignedDigits re with
          | some (e, r5) => (some e, r5)
          | none => (none, r2)
        else (none, r2)
      | [] => (none, r2)
    match frac, expo with
    | none, none =>
      let n : ℤ := digitsVal ip
      some (.i (if neg then -n else n), r1)
    | _, _ =>
      let fp := frac.getD []
      let q : ℚ := ((digitsVal ip : ℚ) + (digitsVal fp : ℚ) / ((10 : ℚ) ^ fp.length)) *
        (10 : ℚ) ^ (expo.getD 0)
      some (.f (.finite (if neg then -q else q)), r4)

/-- One JSON string literal body (escape sequences not modelled; no claim
depends on them). -/
def parseJsonString : List Char → Option (String × List Char)
  | [] => none
  | c :: rest =>
    if c = '"' then some ("", rest)
    else if c = '\\' then none
    else (parseJsonString rest).map fun (s, r) => (String.mk (c :: s.data), r)

mutual
def parseJsonVal : ℕ → List Char → Option (Json × List Char)
  | 0, _ => none
  | fuel + 1, cs =>
    match skipWs cs with
    | '{' :: rest =>
      (parseJsonMembers fuel (skipWs rest) true).map fun (kvs, r) => (Json.obj kvs, r)
    | '[' :: rest =>
      (parseJsonElems fuel (skipWs rest) true).map fun (xs, r) => (Json.arr xs, r)
    | '"' :: rest => (parseJsonString rest).map fun (s, r) => (Json.str s, r)
    | 'n' :: 'u' :: 'l' :: 'l' :: r => some (.null, r)
    | 't' :: 'r' :: 'u' :: 'e' :: r => some (.bool true, r)
    | 'f' :: 'a' :: 'l' :: 's' :: 'e' :: r => some (.bool false, r)
    | other => (parseJsonNumber other).map fun (n, r) => (Json.num n, r)

def parseJsonMembers : ℕ → List Char → Bool → Option (List (String × Json) × List Char)
  | 0, _, _ => none
  | _ + 1, '}' :: rest, true => some ([], rest)
  | fuel + 1, cs, _first =>
    match skipWs cs with
    | '"' :: rest =>
      match parseJsonString rest with
      | none => none
      | some (k, r1) =>
        match skipWs r1 with
        | ':' :: r2 =>
          match parseJsonVal fuel r2 with
          | none => none
          | some (v, r3) =>
            match skipWs r3 with
            | ',' :: r4 => (parseJsonMembers fuel (skipWs r4) false).map
                fun (kvs, r5) => ((k, v) :: kvs, r5)
            | '}' :: r4 => some ([(k, v)], r4)
            | _ => none
        | _ => none
    | _ => none

def parseJsonElems : ℕ → List Char → Bool → Option (List Json × List Char)
  | 0, _, _ => none
  | _ + 1, ']' :: rest, true => some ([], rest)
  | fuel + 1, cs, _first =>
    match parseJsonVal fuel cs with
    | none => none
    | some (v, r1) =>
      match skipWs r1 with
      | ',' :: r2 => (parseJsonElems fuel r2 false).map fun (xs, r3) => (v :: xs, r3)
      | ']' :: r2 => some ([v], r2)
      | _ => none
end

/-- Model of `serde_json::from_str::<Value>`: parse one value and require the rest of
the input to be whitespace. -/
def parse_json (s : String) : Option Json :=
  match parseJsonVal (s.length + 1) s.data with
  | some (v, rest) => if (skipWs rest).isEmpty then some v else none
  | none => none

/-- Function `process_json`: parse, flatten, reconcile; a parse failure contributes zero
metrics.  `none` models a panic inside the reconciler. -/
def process_json (contents : String) (ignore_keys : List String)
    (metric_pfx : String) (st : MetricsState) : Option (ℤ × MetricsState) :=
  match parse_json contents with
  | some json => update_metrics_from_map (flatten_json json) ignore_keys metric_pfx st
  | none => some (0, st)

/-! ## The YAML decoder (`process_yaml`) -/

/-- Modelled from the spec: `serde_yaml::from_str` followed by
`serde_json::to_value` (§4.2: "YAML decoding normalizes through the same
generic tree model as JSON before flattening").  The YAML library is external
to the repository; the model covers flat `key: value` scalar mappings, which
suffices because no claim under verification depends on YAML parsing
specifics — claims only need `process_yaml` to exist on the dispatch path with
parse failures contributing zero metrics. -/
def parse_yaml (s : String) : Option Json :=
  let parseLine : String → Option (String × Json) := fun line =>
    match line.splitOn ": " with
    | [k, v] =>
      match parseFinite v.data with
      | some q => some (k, Json.num (.f (.finite q)))
      | none => some (k, Json.str v)
    | _ => none
  let lines := (s.splitOn "\n").filter fun l => !l.isEmpty
  if lines.isEmpty then none
  else
    (lines.foldr (fun line acc =>
        match parseLine line, acc with
        | some kv, some kvs => some (kv :: kvs)
        | _, _ => none)
      (some [])).map Json.obj

/-- Function `process_yaml`: parse (and convert to the generic tree), flatten,
reconcile; parse or conversion failure contributes zero metrics. -/
def process_yaml (contents : String) (ignore_keys : List String)
    (metric_pfx : String) (st : MetricsState) : Option (ℤ × MetricsState) :=
  match parse_yaml contents with
  | some json => update_metrics_from_map (flatten_json json) ignore_keys metric_pfx st
  | none => some (0, st)

/-! ## One collection cycle of `update_metrics` -/

/-- The exporter's own counters touched by the collection loop
(`InternalMetrics`): cumulative read attempts, cumulative read failures, and
the most-recent-cycle metric count. -/
structure Counters where
  reads : ℕ
  failures : ℕ
  metricsTotal : ℤ
deriving DecidableEq, Repr

/-- What fetching one configured source yields this cycle: a fetch failure
(URL error or file I/O error), or contents plus the detected/derived format
tag. -/
inductive SourceFetch where
  | fetchErr
  | ok (contents : String) (ftype : String)

/-- The `match file_type.as_str()` dispatch of the collection loop: decoders
for `json`, `yaml`/`yml` and `csv`; any other tag is logged as unsupported and
contributes zero metrics. -/
def process_source (contents ftype : String) (ignore_keys : List String)
    (metric_pfx : String) (st : MetricsState) : Option (ℤ × MetricsState) :=
  if ftype = "json" then process_json contents ignore_keys metric_pfx st
  else if ftype = "yaml" ∨ ftype = "yml" then process_yaml contents ignore_keys metric_pfx st
  else if ftype = "csv" then process_csv contents ignore_keys metric_pfx st
  else some (0, st)

/-- The `for file in &files` loop body of one cycle: every source bumps the
read-attempts counter; a fetch failure bumps the failure counter and
`continue`s; otherwise the decoder's count is added to the running
`metric_count` accumulator.  `none` models a panic. -/
def run_sources (sources : List SourceFetch) (ignore_keys : List String)
    (metric_pfx : String) (st : MetricsState) (c : Counters) (acc : ℤ) :
    Option (MetricsState × Counters × ℤ) :=
  match sources with
  | [] => some (st, c, acc)
  | .fetchErr :: rest =>
    run_sources rest ignore_keys metric_pfx st
      { c with reads := c.reads + 1, failures := c.failures + 1 } acc
  | .ok contents ftype :: rest =>
    match process_source contents ftype ignore_keys metric_pfx st with
    | none => none
    | some (n, st2) =>
      run_sources rest ignore_keys metric_pfx st2
        { c with reads := c.reads + 1 } (acc + n)

/-- One full pass of the `loop` in `update_metrics`: process every source
starting from `metric_count = 0`, then `internal_metrics.metrics_total.set`
overwrites the metrics-total gauge with this cycle's count. -/
def run_cycle (sources : List SourceFetch) (ignore_keys : List String)
    (metric_pfx : String) (st : MetricsState) (c : Counters) :
    Option (MetricsState × Counters) :=
  match run_sources sources ignore_keys metric_pfx st c 0 with
  | none => none
  | some (st2, c2, total) => some (st2, { c2 with metricsTotal := total })

/-! ## Spec-side definitions used to state claims -/

/-- Value coercion as §4.4 of the spec words it: numeric values pass through
(via `as_f64`), strings attempt a float parse, every other kind is rejected.
Stated separately from `update_metrics_from_map` so the reconciler's count can
be compared against it. -/
def coerce_value : Json → Option F64
  | .num n => n.as_f64
  | .str s => parse_f64 s
  | _ => none

/-- CSV row decoding as the (amended) spec words it: if some cell parses to a
non-finite float the call panics; otherwise exactly the pairs whose cell
parses become entries keyed by the header, in pair order.  (The refinement
theorem compares this with the code under duplicate-free headers; with
duplicate headers the code's `HashMap` keeps only the last write.) -/
def csv_row_spec (pairs : List (String × String)) : CsvDecode :=
  if pairs.any (fun p => ((parse_f64 p.2).map fun x => !x.is_finite).getD false) then
    .panicked
  else
    .ok (pairs.filterMap fun p =>
      (parse_f64 p.2).map fun x => (p.1, Json.num (.f x)))

/-- Left-biased choice on options (used to state that the flattener's output on
a key is its own contribution when it has one, and the pre-existing accumulator
entry otherwise). -/
def optOr {α : Type} : Option α → Option α → Option α
  | some x, _ => some x
  | none, b => b

/-- Number of sources whose fetch fails this cycle. -/
def numFetchErr : List SourceFetch → ℕ
  | [] => 0
  | .fetchErr :: rest => numFetchErr rest + 1
  | .ok _ _ :: rest => numFetchErr rest

/-! ## Helper lemmas: association lists -/

theorem lookupKV_insertKV {α : Type} (m : List (String × α)) (k kq : String) (v : α) :
    lookupKV kq (insertKV m k v) = if k = kq then some v else lookupKV kq m := by
  induction m with
  | nil => simp [insertKV, lookupKV]
  | cons hd tl ih =>
    obtain ⟨k0, v0⟩ := hd
    by_cases h : k0 = k
    · subst h
      by_cases h2 : k0 = kq <;> simp [insertKV, lookupKV, h2]
    · by_cases h2 : k0 = kq
      · subst h2
        have : ¬ k = k0 := fun hc => h hc.symm
        simp [insertKV, lookupKV, h, this]
      · simp [insertKV, lookupKV, h, h2, ih]

theorem optOr_assoc {α : Type} (a b c : Option α) :
    optOr (optOr a b) c = optOr a (optOr b c) := by
  cases a <;> rfl

/-! ## Helper lemmas: the flattener's output is a function of its input alone

On any key, the result of `flatten_json_inner v pfx m` is the contribution the
call itself computes (which depends only on `v` and `pfx`), and falls back to
the pre-existing accumulator entry otherwise: the accumulator is only the
output map being built, never an input to the traversal. -/

theorem lookupKV_insert_opt (m : List (String × Json)) (pfx k : String) (v : Json) :
    lookupKV k (insertKV m pfx v) =
      optOr (lookupKV k (insertKV [] pfx v)) (lookupKV k m) := by
  by_cases h : pfx = k <;> simp [lookupKV_insertKV, h, optOr, lookupKV, insertKV]

mutual
theorem flatten_inner_acc : ∀ (v : Json) (pfx : String) (m : List (String × Json)) (k : String),
    lookupKV k (flatten_json_inner v pfx m) =
      optOr (lookupKV k (flatten_json_inner v pfx [])) (lookupKV k m)
  | .null, pfx, m, k => by
    simpa [flatten_json_inner] using lookupKV_insert_opt m pfx k .null
  | .bool b, pfx, m, k => by
    simpa [flatten_json_inner] using lookupKV_insert_opt m pfx k (.bool b)
  | .num n, pfx, m, k => by
    simpa [flatten_json_inner] using lookupKV_insert_opt m pfx k (.num n)
  | .str s, pfx, m, k => by
    simpa [flatten_json_inner] using lookupKV_insert_opt m pfx k (.str s)
  | .arr xs, pfx, m, k => by
    simpa [flatten_json_inner] using flattenItems_acc xs pfx 0 m k
  | .obj kvs, pfx, m, k => by
    simpa [flatten_json_inner] using flattenFields_acc kvs pfx m k

theorem flattenFields_acc : ∀ (kvs : List (String × Json)) (pfx : String)
    (m : List (String × Json)) (k : String),
    lookupKV k (flattenFields kvs pfx m) =
      optOr (lookupKV k (flattenFields kvs pfx [])) (lookupKV k m)
  | [], pfx, m, k => by simp [flattenFields, lookupKV, optOr]
  | (kk, v) :: rest, pfx, m, k => by
    have hrest1 := flattenFields_acc rest pfx
      (flatten_json_inner v (if pfx.isEmpty then kk else pfx ++ "__" ++ kk) m) k
    have hrest2 := flattenFields_acc rest pfx
      (flatten_json_inner v (if pfx.isEmpty then kk else pfx ++ "__" ++ kk) []) k
    have hv := flatten_inner_acc v (if pfx.isEmpty then kk else pfx ++ "__" ++ kk) m k
    simp [flattenFields, hrest1, hrest2, hv, optOr_assoc]

theorem flattenItems_acc : ∀ (xs : List Json) (pfx : String) (i : ℕ)
    (m : List (String × Json)) (k : String),
    lookupKV k (flattenItems xs pfx i m) =
      optOr (lookupKV k (flattenItems xs pfx i [])) (lookupKV k m)
  | [], pfx, i, m, k => by simp [flattenItems, lookupKV, optOr]
  | v :: rest, pfx, i, m, k => by
    have hrest1 := flattenItems_acc rest pfx (i + 1)
      (flatten_json_inner v (pfx ++ "__" ++ toString i) m) k
    have hrest2 := flattenItems_acc rest pfx (i + 1)
      (flatten_json_inner v (pfx ++ "__" ++ toString i) []) k
    have hv := flatten_inner_acc v (pfx ++ "__" ++ toString i) m k
    simp [flattenItems, hrest1, hrest2, hv, optOr_assoc]
end

/-! ## Helper lemmas: shape of the keys the flattener produces -/

mutual
theorem flatten_inner_keys : ∀ (v : Json) (pfx : String) (m : List (String × Json)) (k : String),
    lookupKV k (flatten_json_inner v pfx m) ≠ lookupKV k m → ∃ rest, k = pfx ++ rest
  | .null, pfx, m, k => by
    simp only [flatten_json_inner, lookupKV_insertKV]
    by_cases hc : pfx = k
    · exact fun _ => ⟨"", by rw [String.append_empty]; exact hc.symm⟩
    · simp [hc]
  | .bool b, pfx, m, k => by
    simp only [flatten_json_inner, lookupKV_insertKV]
    by_cases hc : pfx = k
    · exact fun _ => ⟨"", by rw [String.append_empty]; exact hc.symm⟩
    · simp [hc]
  | .num n, pfx, m, k => by
    simp only [flatten_json_inner, lookupKV_insertKV]
    by_cases hc : pfx = k
    · exact fun _ => ⟨"", by rw [String.append_empty]; exact hc.symm⟩
    · simp [hc]
  | .str s, pfx, m, k => by
    simp only [flatten_json_inner, lookupKV_insertKV]
    by_cases hc : pfx = k
    · exact fun _ => ⟨"", by rw [String.append_empty]; exact hc.symm⟩
    · simp [hc]
  | .arr xs, pfx, m, k => by
    intro h
    obtain ⟨rest, hr⟩ := flattenItems_keys xs pfx 0 m k (by simpa [flatten_json_inner] using h)
    exact ⟨"__" ++ rest, by rw [hr, String.append_assoc]⟩
  | .obj kvs, pfx, m, k => by
    intro h
    exact flattenFields_keys kvs pfx m k (by simpa [flatten_json_inner] using h)

theorem flattenFields_keys : ∀ (kvs : List (String × Json)) (pfx : String)
    (m : List (String × Json)) (k : String),
    lookupKV k (flattenFields kvs pfx m) ≠ lookupKV k m → ∃ rest, k = pfx ++ rest
  | [], pfx, m, k => by simp [flattenFields]
  | (kk, v) :: rest', pfx, m, k => by
    intro h
    rw [show flattenFields ((kk, v) :: rest') pfx m =
      flattenFields rest' pfx
        (flatten_json_inner v (if pfx.isEmpty then kk else pfx ++ "__" ++ kk) m)
      from rfl] at h
    rcases eq_or_ne
        (lookupKV k (flatten_json_inner v (if pfx.isEmpty then kk else pfx ++ "__" ++ kk) m))
        (lookupKV k m) with he | hne
    · have h2 : lookupKV k (flattenFields rest' pfx
          (flatten_json_inner v (if pfx.isEmpty then kk else pfx ++ "__" ++ kk) m)) ≠
          lookupKV k (flatten_json_inner v (if pfx.isEmpty then kk else pfx ++ "__" ++ kk) m) := by
        rw [he]; exact h
      exact flattenFields_keys rest' pfx _ k h2
    · obtain ⟨r, hr⟩ := flatten_inner_keys v _ m k hne
      by_cases hp : pfx.isEmpty
      · have hp0 : pfx = "" := (String.isEmpty_iff pfx).mp hp
        subst hp0
        rw [if_pos (by decide)] at hr
        exact ⟨kk ++ r, by rw [String.empty_append]; exact hr⟩
      · rw [if_neg hp] at hr
        exact ⟨"__" ++ kk ++ r, by
          rw [hr, String.append_assoc, String.append_assoc, String.append_assoc]⟩

theorem flattenItems_keys : ∀ (xs : List Json) (pfx : String) (i : ℕ)
    (m : List (String × Json)) (k : String),
    lookupKV k (flattenItems xs pfx i m) ≠ lookupKV k m → ∃ rest, k = pfx ++ "__" ++ rest
  | [], pfx, i, m, k => by simp [flattenItems]
  | v :: rest', pfx, i, m, k => by
    intro h
    rw [show flattenItems (v :: rest') pfx i m =
      flattenItems rest' pfx (i + 1) (flatten_json_inner v (pfx ++ "__" ++ toString i) m)
      from rfl] at h
    rcases eq_or_ne
        (lookupKV k (flatten_json_inner v (pfx ++ "__" ++ toString i) m))
        (lookupKV k m) with he | hne
    · have h2 : lookupKV k (flattenItems rest' pfx (i + 1)
          (flatten_json_inner v (pfx ++ "__" ++ toString i) m)) ≠
          lookupKV k (flatten_json_inner v (pfx ++ "__" ++ toString i) m) := by
        rw [he]; exact h
      exact flattenItems_keys rest' pfx (i + 1) _ k h2
    · obtain ⟨r, hr⟩ := flatten_inner_keys v _ m k hne
      exact ⟨toString i ++ r, by rw [hr, String.append_assoc]⟩
end

/-! ## Claims C3 and C9 -/

/-- C3: the flattening function joins object child keys with `"__"` only when
the running prefix is non-empty (top-level object keys are used bare), but
always joins array indices with `"__"` even at an empty prefix, so a top-level
array yields keys beginning with `"__"`; flattening
`a ↦ (b ↦ 1, c ↦ [2, 3])` yields exactly the map
`a__b ↦ 1, a__c__0 ↦ 2, a__c__1 ↦ 3`. -/
theorem C3_flatten_join_asymmetry :
    (flatten_json (Json.obj [("a", Json.obj [("b", Json.num (JNumber.i 1)),
        ("c", Json.arr [Json.num (JNumber.i 2), Json.num (JNumber.i 3)])])]) =
      [("a__b", Json.num (JNumber.i 1)), ("a__c__0", Json.num (JNumber.i 2)),
       ("a__c__1", Json.num (JNumber.i 3))])
    ∧ (flatten_json (Json.arr [Json.num (JNumber.i 2), Json.num (JNumber.i 3)]) =
      [("__0", Json.num (JNumber.i 2)), ("__1", Json.num (JNumber.i 3))])
    ∧ (flatten_json (Json.obj [("a", Json.num (JNumber.i 1))]) =
      [("a", Json.num (JNumber.i 1))])
    ∧ (∀ (xs : List Json) (k : String),
        (lookupKV k (flatten_json (Json.arr xs))).isSome = true →
          ∃ rest, k = "__" ++ rest) := by
  refine ⟨by decide, by decide, by decide, fun xs k h => ?_⟩
  have hne : lookupKV k (flattenItems xs "" 0 []) ≠
      lookupKV k ([] : List (String × Json)) := by
    intro he
    rw [show flatten_json (Json.arr xs) = flattenItems xs "" 0 [] from rfl, he] at h
    simp [lookupKV] at h
  obtain ⟨rest, hr⟩ := flattenItems_keys xs "" 0 [] k hne
  exact ⟨rest, by rwa [String.empty_append] at hr⟩

/-- C3 witness: the general top-level-array conjunct applied to the singleton
array `[7]` and its key `"__0"`. -/
theorem C3_flatten_join_asymmetry_witness :
    (lookupKV "__0" (flatten_json (Json.arr [Json.num (JNumber.i 7)]))).isSome = true ∧
    ∃ rest, "__0" = "__" ++ rest :=
  ⟨by decide,
   C3_flatten_join_asymmetry.2.2.2 [Json.num (JNumber.i 7)] "__0" (by decide)⟩

/-- C9: the flattening function is pure and deterministic.  In the embedding it
is a mathematical function of the input tree, so determinism is intrinsic; the
formalisable content of "no state is shared across calls other than the output
map being built" is: every call runs from an empty prefix into a fresh empty
map, and on every key the output of a traversal is its own contribution
(a function of the input tree and prefix alone), falling back to the
pre-existing accumulator entry — the accumulator never influences the
contribution. -/
theorem C9_flatten_pure :
    (∀ v : Json, flatten_json v = flatten_json_inner v "" []) ∧
    (∀ (v : Json) (pfx : String) (m : List (String × Json)) (k : String),
      lookupKV k (flatten_json_inner v pfx m) =
        optOr (lookupKV k (flatten_json_inner v pfx [])) (lookupKV k m)) :=
  ⟨fun _ => rfl, flatten_inner_acc⟩

/-! ## Claim C1 -/

/-- C1 (code-bug evidence): the per-cycle path CAN terminate the process, so
the claim's universal no-termination property fails on the code.  The string
`"NaN"` parses as an `f64`, but `process_csv` then runs
`serde_json::Number::from_f64(num).unwrap()`, whose `unwrap` panics on the
non-finite value; the panic propagates out of the whole cycle (modelled as
`none`). -/
theorem C1_csv_nan_cell_terminates_process :
    parse_f64 "NaN" = some F64.nan ∧
    process_csv "a\nNaN" [] "" ⟨[], []⟩ = none ∧
    run_cycle [SourceFetch.ok "a\nNaN" "csv"] [] "" ⟨[], []⟩ ⟨0, 0, 0⟩ = none := by
  refine ⟨by decide, by decide, by decide⟩

/-! ## Claim C2 -/

/-- C2 counterexample: a response with the non-success HTTP status 404 is not
turned into a fetch error — its body is read and returned with the detected
format tag, because `fetch_url` never inspects the status. -/
theorem C2_counterexample_status_not_checked :
    fetch_url (HttpResult.response 404 (some (some "application/json")) (some "a,b")) =
      some ("a,b", "json") := by decide

/-- C2 (amended): for every HTTP source, fetch returns a fetch error exactly
when the request fails at the transport level or reading the body fails; the
HTTP status code is never inspected, and whenever the body is readable it is
returned together with the format tag detected from the `Content-Type`
header.  (The URL dispatch itself is `is_http_source`.) -/
theorem C2_fetch_url_amended (status : ℕ) (ct : ContentTypeHeader) (body : Option String) :
    fetch_url HttpResult.transportErr = none ∧
    is_http_source "http://h/metrics.json" = true ∧
    fetch_url (HttpResult.response status ct body) =
      body.map fun content => (content, detect_file_type_from_headers ct) := by
  refine ⟨rfl, by decide, ?_⟩
  cases body <;> rfl

/-! ## Claim C10 -/

/-- C10: content-type detection tests the known substrings in a fixed
precedence order — JSON before YAML before CSV — on the lowercased header
value, so a header containing substrings from more than one list is tagged
with the earlier format; a missing header, or a header value that is not valid
ASCII (`to_str` fails, replaced by `""`), yields `"unknown"`. -/
theorem C10_detect_precedence :
    (∀ s : String, (JSON_TYPES.any fun t => containsSub (lowerStr s) t) = true →
      detect_file_type_from_headers (some (some s)) = "json")
    ∧ (∀ s : String, (JSON_TYPES.any fun t => containsSub (lowerStr s) t) = false →
        (YAML_TYPES.any fun t => containsSub (lowerStr s) t) = true →
        detect_file_type_from_headers (some (some s)) = "yaml")
    ∧ (∀ s : String, (JSON_TYPES.any fun t => containsSub (lowerStr s) t) = false →
        (YAML_TYPES.any fun t => containsSub (lowerStr s) t) = false →
        (CSV_TYPES.any fun t => containsSub (lowerStr s) t) = true →
        detect_file_type_from_headers (some (some s)) = "csv")
    ∧ (∀ s : String, (JSON_TYPES.any fun t => containsSub (lowerStr s) t) = false →
        (YAML_TYPES.any fun t => containsSub (lowerStr s) t) = false →
        (CSV_TYPES.any fun t => containsSub (lowerStr s) t) = false →
        detect_file_type_from_headers (some (some s)) = "unknown")
    ∧ detect_file_type_from_headers none = "unknown"
    ∧ detect_file_type_from_headers (some none) = "unknown"
    ∧ detect_file_type_from_headers (some (some "application/x-yaml; text/csv")) = "yaml" := by
  refine ⟨?_, ?_, ?_, ?_, rfl, by decide, by decide⟩
  · intro s h
    simp [detect_file_type_from_headers, h]
  · intro s h1 h2
    simp [detect_file_type_from_headers, h1, h2]
  · intro s h1 h2 h3
    simp [detect_file_type_from_headers, h1, h2, h3]
  · intro s h1 h2 h3
    simp [detect_file_type_from_headers, h1, h2, h3]

/-- C10 witness: the CSV conjunct applied to the uppercase header value
`"TEXT/CSV"` (also exercising case-insensitivity). -/
theorem C10_detect_precedence_witness :
    detect_file_type_from_headers (some (some "TEXT/CSV")) = "csv" :=
  C10_detect_precedence.2.2.1 "TEXT/CSV" (by decide) (by decide) (by decide)

/-! ## Helper lemmas: the reconciler -/

theorem insertKV_keys {α : Type} (m : List (String × α)) (k : String) (v : α)
    (h : (m.map Prod.fst).contains k = true) :
    (insertKV m k v).map Prod.fst = m.map Prod.fst := by
  induction m with
  | nil => simp at h
  | cons hd tl ih =>
    obtain ⟨k0, v0⟩ := hd
    by_cases hk : k0 = k
    · subst hk; simp [insertKV]
    · simp only [List.map_cons, List.contains_cons, Bool.or_eq_true, beq_iff_eq] at h
      rcases h with h | h
      · exact absurd h.symm hk
      · simp [insertKV, hk, ih h]

theorem setGauge_cases (st : MetricsState) (name helpKey : String) (n : F64)
    (st' : MetricsState) (h : setGauge st name helpKey n = some st') :
    (st'.gauges.map Prod.fst = st.gauges.map Prod.fst ∧ st'.registry = st.registry) ∨
    (st'.gauges.map Prod.fst = st.gauges.map Prod.fst ++ [name] ∧
      st'.registry = st.registry ++ [name] ∧ name ∉ st.registry) := by
  unfold setGauge at h
  by_cases h1 : (st.gauges.map Prod.fst).contains name = true
  · rw [if_pos h1] at h
    obtain rfl := Option.some.inj h
    exact Or.inl ⟨insertKV_keys st.gauges name n h1, rfl⟩
  · rw [if_neg h1] at h
    by_cases h2 : (gauge_new_ok name helpKey && !st.registry.contains name) = true
    · rw [if_pos h2] at h
      obtain rfl := Option.some.inj h
      refine Or.inr ⟨by simp, rfl, ?_⟩
      have h2' : gauge_new_ok name helpKey = true ∧ (!st.registry.contains name) = true := by
        simpa [Bool.and_eq_true] using h2
      have h3 : st.registry.contains name = false := by simpa using h2'.2
      simpa using h3
    · rw [if_neg h2] at h
      exact absurd h (by simp)

theorem umfm_step_state (key : String) (value : Json) (ik : List String) (pfx : String)
    (st : MetricsState) (c1 : ℤ) (st2 : MetricsState)
    (h : umfm_step key value ik pfx st = some (c1, st2)) :
    st2 = st ∨ ∃ n, setGauge st (pfx ++ key) key n = some st2 := by
  simp only [umfm_step] at h
  by_cases hik : ik.contains key = true
  · rw [if_pos hik] at h
    exact Or.inl (congrArg Prod.snd (Option.some.inj h)).symm
  · rw [if_neg hik] at h
    cases value with
    | num num =>
      cases hn : num.as_f64 with
      | some n =>
        simp only [hn] at h
        cases hsg : setGauge st (pfx ++ key) key n with
        | none =>
          simp only [hsg, Option.map_none'] at h
          exact Option.noConfusion h
        | some s2 =>
          simp only [hsg, Option.map_some'] at h
          exact Or.inr ⟨n, by rw [hsg]; exact congrArg some (congrArg Prod.snd (Option.some.inj h))⟩
      | none =>
        simp only [hn] at h
        exact Or.inl (congrArg Prod.snd (Option.some.inj h)).symm
    | str s =>
      cases hn : parse_f64 s with
      | some n =>
        simp only [hn] at h
        cases hsg : setGauge st (pfx ++ key) key n with
        | none =>
          simp only [hsg, Option.map_none'] at h
          exact Option.noConfusion h
        | some s2 =>
          simp only [hsg, Option.map_some'] at h
          exact Or.inr ⟨n, by rw [hsg]; exact congrArg some (congrArg Prod.snd (Option.some.inj h))⟩
      | none =>
        simp only [hn] at h
        exact Or.inl (congrArg Prod.snd (Option.some.inj h)).symm
    | null => exact Or.inl (congrArg Prod.snd (Option.some.inj h)).symm
    | bool b => exact Or.inl (congrArg Prod.snd (Option.some.inj h)).symm
    | arr xs => exact Or.inl (congrArg Prod.snd (Option.some.inj h)).symm
    | obj kvs => exact Or.inl (congrArg Prod.snd (Option.some.inj h)).symm

theorem update_extends : ∀ (obj : List (String × Json)) (ik : List String) (pfx : String)
    (st : MetricsState) (c : ℤ) (st' : MetricsState),
    update_metrics_from_map obj ik pfx st = some (c, st') →
    ∃ L, st'.registry = st.registry ++ L ∧ L.Nodup ∧ (∀ n ∈ L, n ∉ st.registry) ∧
      st'.gauges.map Prod.fst = st.gauges.map Prod.fst ++ L
  | [], ik, pfx, st, c, st', h => by
    simp only [update_metrics_from_map] at h
    obtain h2 := congrArg Prod.snd (Option.some.inj h)
    subst h2
    exact ⟨[], by simp, List.nodup_nil, by simp, by simp⟩
  | (key, value) :: rest, ik, pfx, st, c, st', h => by
    simp only [update_metrics_from_map] at h
    cases hstep : umfm_step key value ik pfx st with
    | none =>
      simp only [hstep] at h
      exact Option.noConfusion h
    | some p =>
      obtain ⟨c1, st2⟩ := p
      simp only [hstep] at h
      cases hrest : update_metrics_from_map rest ik pfx st2 with
      | none =>
        simp only [hrest] at h
        exact Option.noConfusion h
      | some q =>
        obtain ⟨c2, st3⟩ := q
        simp only [hrest] at h
        obtain h2 := congrArg Prod.snd (Option.some.inj h)
        subst h2
        obtain ⟨L2, hreg2, hnd2, hdis2, hkeys2⟩ :=
          update_extends rest ik pfx st2 c2 st3 hrest
        rcases umfm_step_state key value ik pfx st c1 st2 hstep with hsame | ⟨n, hsg⟩
        · subst hsame
          exact ⟨L2, hreg2, hnd2, hdis2, hkeys2⟩
        · rcases setGauge_cases st (pfx ++ key) key n st2 hsg with
            ⟨hkeq, hreq⟩ | ⟨hkeq, hreq, hnotin⟩
          · exact ⟨L2, by rw [hreg2, hreq], hnd2, fun x hx => hreq ▸ hdis2 x hx,
              by rw [hkeys2, hkeq]⟩
          · refine ⟨(pfx ++ key) :: L2, ?_, ?_, ?_, ?_⟩
            · rw [hreg2, hreq, List.append_assoc]
              rfl
            · refine List.nodup_cons.mpr ⟨?_, hnd2⟩
              intro hmem
              exact hdis2 _ hmem (hreq ▸ List.mem_append_right _ (by simp))
            · intro x hx
              rcases List.mem_cons.mp hx with rfl | hx2
              · exact hnotin
              · intro hmem
                exact hdis2 x hx2 (hreq ▸ List.mem_append_left _ hmem)
            · rw [hkeys2, hkeq, List.append_assoc]
              rfl

/-! ## Claim C4 -/

/-- C4: gauge lifecycle.  Generally, a successful reconciliation extends the
registry and the gauge-map key set by one identical list `L` of fresh names —
each registered exactly once (`L.Nodup`, disjoint from the existing registry) —
and never removes a gauge-map entry (the old keys persist as a prefix);
every update to an existing name happens in place, with no registry change.
Concretely, reconciling `x ↦ 1` and then `x ↦ 2` under the same prefix leaves
exactly one registered gauge named `x` with final value `2`. -/
theorem C4_gauge_lifecycle :
    (∀ (obj : List (String × Json)) (ik : List String) (pfx : String) (st : MetricsState)
        (c : ℤ) (st' : MetricsState),
      update_metrics_from_map obj ik pfx st = some (c, st') →
      ∃ L, st'.registry = st.registry ++ L ∧ L.Nodup ∧ (∀ n ∈ L, n ∉ st.registry) ∧
        st'.gauges.map Prod.fst = st.gauges.map Prod.fst ++ L)
    ∧ update_metrics_from_map [("x", Json.num (JNumber.i 1))] [] "" ⟨[], []⟩ =
        some (1, ⟨[("x", F64.finite 1)], ["x"]⟩)
    ∧ update_metrics_from_map [("x", Json.num (JNumber.i 2))] [] ""
        ⟨[("x", F64.finite 1)], ["x"]⟩ =
        some (1, ⟨[("x", F64.finite 2)], ["x"]⟩) :=
  ⟨update_extends, by decide, by decide⟩

/-- C4 witness: the general lifecycle conjunct applied to the first concrete
reconciliation. -/
theorem C4_gauge_lifecycle_witness :
    ∃ L, (["x"] : List String) = [] ++ L ∧ L.Nodup ∧
      (∀ n ∈ L, n ∉ ([] : List String)) ∧
      [("x", F64.finite 1)].map Prod.fst = ([] : List (String × F64)).map Prod.fst ++ L :=
  C4_gauge_lifecycle.1 [("x", Json.num (JNumber.i 1))] [] "" ⟨[], []⟩ 1
    ⟨[("x", F64.finite 1)], ["x"]⟩ (by decide)

/-! ## Claim C6 -/

/-- Helper: one reconciler step, restated through the spec-side `coerce_value`
(numbers straight through, strings float-parsed, everything else rejected). -/
theorem umfm_step_spec (key : String) (value : Json) (ik : List String) (pfx : String)
    (st : MetricsState) :
    umfm_step key value ik pfx st =
      if ik.contains key then some ((0 : ℤ), st)
      else
        match coerce_value value with
        | some n => (setGauge st (pfx ++ key) key n).map fun st2 => ((1 : ℤ), st2)
        | none => some (0, st) := by
  by_cases hik : ik.contains key = true
  · simp only [umfm_step, if_pos hik]
  · simp only [umfm_step, if_neg hik]
    cases value <;> rfl

/-- C6: the reconciler's return value counts exactly the keys for which a gauge
value was successfully set — the non-ignored keys whose value coerces (numbers
directly, strings through a float parse); a failed string parse or an
unsupported value kind skips only that key, and the rest of the map is still
processed. -/
theorem C6_reconciler_count : ∀ (obj : List (String × Json)) (ik : List String)
    (pfx : String) (st : MetricsState) (c : ℤ) (st' : MetricsState),
    update_metrics_from_map obj ik pfx st = some (c, st') →
    c = ((obj.filter fun kv =>
      !(ik.contains kv.1) && (coerce_value kv.2).isSome).length : ℤ)
  | [], ik, pfx, st, c, st', h => by
    simp only [update_metrics_from_map] at h
    have hc : (0 : ℤ) = c := congrArg Prod.fst (Option.some.inj h)
    simp [← hc]
  | (key, value) :: rest, ik, pfx, st, c, st', h => by
    simp only [update_metrics_from_map, umfm_step_spec] at h
    by_cases hik : ik.contains key = true
    · rw [if_pos hik] at h
      cases hrest : update_metrics_from_map rest ik pfx st with
      | none =>
        simp only [hrest] at h
        exact Option.noConfusion h
      | some q =>
        obtain ⟨c2, st3⟩ := q
        simp only [hrest] at h
        have hc := congrArg Prod.fst (Option.some.inj h)
        have ih := C6_reconciler_count rest ik pfx st c2 st3 hrest
        simp only [List.filter_cons, hik]
        simp only [Bool.not_true, Bool.false_and, Bool.false_eq_true, if_false,
          reduceIte]
        simp only at hc
        omega
    · rw [if_neg hik] at h
      have hik' : ik.contains key = false := by simpa using hik
      cases hcv : coerce_value value with
      | none =>
        simp only [hcv] at h
        cases hrest : update_metrics_from_map rest ik pfx st with
        | none =>
          simp only [hrest] at h
          exact Option.noConfusion h
        | some q =>
          obtain ⟨c2, st3⟩ := q
          simp only [hrest] at h
          have hc := congrArg Prod.fst (Option.some.inj h)
          have ih := C6_reconciler_count rest ik pfx st c2 st3 hrest
          simp only [List.filter_cons, hik', hcv]
          simp only [Bool.not_false, Option.isSome_none, Bool.and_false,
            Bool.false_eq_true, if_false, reduceIte]
          simp only at hc
          omega
      | some n =>
        simp only [hcv] at h
        cases hsg : setGauge st (pfx ++ key) key n with
        | none =>
          simp only [hsg, Option.map_none'] at h
          exact Option.noConfusion h
        | some st2 =>
          simp only [hsg, Option.map_some'] at h
          cases hrest : update_metrics_from_map rest ik pfx st2 with
          | none =>
            simp only [hrest] at h
            exact Option.noConfusion h
          | some q =>
            obtain ⟨c2, st3⟩ := q
            simp only [hrest] at h
            have hc := congrArg Prod.fst (Option.some.inj h)
            have ih := C6_reconciler_count rest ik pfx st2 c2 st3 hrest
            simp only [List.filter_cons, hik', hcv]
            simp only [Bool.not_false, Option.isSome_some, Bool.and_true,
              if_true, List.length_cons, reduceIte]
            simp only at hc
            push_cast
            omega

/-- C6 witness: the count theorem applied to a map mixing a numeric value, a
parsable string, an unparsable string and a boolean — the call returns 2. -/
theorem C6_reconciler_count_witness :
    (2 : ℤ) = (([("a", Json.num (JNumber.i 1)), ("b", Json.str "2"),
      ("c", Json.str "oops"), ("d", Json.bool true)].filter fun kv =>
        !(([] : List String).contains kv.1) && (coerce_value kv.2).isSome).length : ℤ) :=
  C6_reconciler_count
    [("a", Json.num (JNumber.i 1)), ("b", Json.str "2"),
     ("c", Json.str "oops"), ("d", Json.bool true)] [] "" ⟨[], []⟩ 2
    ⟨[("a", F64.finite 1), ("b", F64.finite 2)], ["a", "b"]⟩ (by decide)

/-! ## Claim C8 -/

/-- Helper: entries whose unprefixed key is in the ignore list are invisible to
the reconciler — the call behaves exactly as on the map with them filtered
out. -/
theorem update_filter_ignored : ∀ (obj : List (String × Json)) (ik : List String)
    (pfx : String) (st : MetricsState),
    update_metrics_from_map obj ik pfx st =
      update_metrics_from_map (obj.filter fun kv => !(ik.contains kv.1)) ik pfx st
  | [], _, _, _ => rfl
  | (key, value) :: rest, ik, pfx, st => by
    by_cases hik : ik.contains key = true
    · have hstep : umfm_step key value ik pfx st = some (0, st) := by
        simp only [umfm_step, if_pos hik]
      have hmem : key ∈ ik := by simpa using hik
      have hfilter : ((key, value) :: rest).filter (fun kv => !(ik.contains kv.1)) =
          rest.filter fun kv => !(ik.contains kv.1) := by
        simp [List.filter_cons, hmem]
      rw [hfilter, ← update_filter_ignored rest ik pfx st]
      simp only [update_metrics_from_map, hstep]
      cases hrest : update_metrics_from_map rest ik pfx st with
      | none => rfl
      | some q => obtain ⟨c2, st3⟩ := q; simp
    · have hik' : ik.contains key = false := by simpa using hik
      have hnmem : key ∉ ik := by simpa using hik
      have hfilter : ((key, value) :: rest).filter (fun kv => !(ik.contains kv.1)) =
          (key, value) :: (rest.filter fun kv => !(ik.contains kv.1)) := by
        simp [List.filter_cons, hnmem]
      rw [hfilter]
      simp only [update_metrics_from_map]
      cases hstep : umfm_step key value ik pfx st with
      | none => rfl
      | some p =>
        obtain ⟨c1, st2⟩ := p
        simp only [update_filter_ignored rest ik pfx]

/-- C8: a key that exactly matches an entry of the ignore-keys list (compared
on the unprefixed flattened key) produces no gauge and does not contribute to
the returned count — the reconciler behaves exactly as if all ignored entries
had been removed from the flat map; with ignore list `secret` and flat map
`secret ↦ 1, public ↦ 2`, reconciliation creates exactly one gauge (`public`)
and returns 1. -/
theorem C8_ignore_keys_exclusion :
    (∀ (obj : List (String × Json)) (ik : List String) (pfx : String) (st : MetricsState),
      update_metrics_from_map obj ik pfx st =
        update_metrics_from_map (obj.filter fun kv => !(ik.contains kv.1)) ik pfx st)
    ∧ update_metrics_from_map
        [("secret", Json.num (JNumber.i 1)), ("public", Json.num (JNumber.i 2))]
        ["secret"] "" ⟨[], []⟩ =
      some (1, ⟨[("public", F64.finite 2)], ["public"]⟩)
    ∧ update_metrics_from_map [("secret", Json.num (JNumber.i 5))] ["secret"] "app_"
        ⟨[], []⟩ = some (0, ⟨[], []⟩) :=
  ⟨update_filter_ignored, by decide, by decide⟩

/-! ## Helper lemmas: the collection cycle -/

theorem run_sources_counts : ∀ (sources : List SourceFetch) (ik : List String) (pfx : String)
    (st : MetricsState) (c : Counters) (acc : ℤ) (out : MetricsState × Counters × ℤ),
    run_sources sources ik pfx st c acc = some out →
    out.2.1.reads = c.reads + sources.length ∧
    out.2.1.failures = c.failures + numFetchErr sources ∧
    out.2.1.metricsTotal = c.metricsTotal
  | [], ik, pfx, st, c, acc, out, h => by
    simp only [run_sources] at h
    obtain rfl := Option.some.inj h
    simp [numFetchErr]
  | .fetchErr :: rest, ik, pfx, st, c, acc, out, h => by
    simp only [run_sources] at h
    obtain ⟨h1, h2, h3⟩ := run_sources_counts rest ik pfx st _ acc out h
    simp only at h1 h2 h3
    refine ⟨?_, ?_, ?_⟩ <;> simp [h1, h2, h3, numFetchErr] <;> omega
  | .ok contents ftype :: rest, ik, pfx, st, c, acc, out, h => by
    simp only [run_sources] at h
    cases hp : process_source contents ftype ik pfx st with
    | none =>
      simp only [hp] at h
      exact Option.noConfusion h
    | some p =>
      obtain ⟨n, st2⟩ := p
      simp only [hp] at h
      obtain ⟨h1, h2, h3⟩ := run_sources_counts rest ik pfx st2 _ _ out h
      simp only at h1 h2 h3
      refine ⟨?_, ?_, ?_⟩ <;> simp [h1, h2, h3, numFetchErr] <;> omega

theorem run_sources_total_irrel : ∀ (sources : List SourceFetch) (ik : List String)
    (pfx : String) (st : MetricsState) (r f : ℕ) (t t2 : ℤ) (acc : ℤ),
    run_sources sources ik pfx st ⟨r, f, t⟩ acc =
      (run_sources sources ik pfx st ⟨r, f, t2⟩ acc).map
        fun out => (out.1, ⟨out.2.1.reads, out.2.1.failures, t⟩, out.2.2)
  | [], ik, pfx, st, r, f, t, t2, acc => by simp [run_sources]
  | .fetchErr :: rest, ik, pfx, st, r, f, t, t2, acc => by
    simp only [run_sources]
    exact run_sources_total_irrel rest ik pfx st (r + 1) (f + 1) t t2 acc
  | .ok contents ftype :: rest, ik, pfx, st, r, f, t, t2, acc => by
    simp only [run_sources]
    cases hp : process_source contents ftype ik pfx st with
    | none => simp
    | some p =>
      obtain ⟨n, st2⟩ := p
      exact run_sources_total_irrel rest ik pfx st2 (r + 1) f t t2 (acc + n)

theorem run_sources_append_fe : ∀ (xs ys : List SourceFetch) (ik : List String)
    (pfx : String) (st : MetricsState) (c : Counters) (acc : ℤ),
    run_sources (xs ++ .fetchErr :: ys) ik pfx st c acc =
      run_sources (xs ++ ys) ik pfx st ⟨c.reads + 1, c.failures + 1, c.metricsTotal⟩ acc
  | [], ys, ik, pfx, st, c, acc => by
    simp only [List.nil_append, run_sources]
  | .fetchErr :: xs, ys, ik, pfx, st, c, acc => by
    simp only [List.cons_append, run_sources]
    exact run_sources_append_fe xs ys ik pfx st _ acc
  | .ok contents ftype :: xs, ys, ik, pfx, st, c, acc => by
    simp only [List.cons_append, run_sources]
    cases hp : process_source contents ftype ik pfx st with
    | none => rfl
    | some p =>
      obtain ⟨n, st2⟩ := p
      exact run_sources_append_fe xs ys ik pfx st2 _ (acc + n)

theorem run_cycle_counts (sources : List SourceFetch) (ik : List String) (pfx : String)
    (st : MetricsState) (c : Counters) (out : MetricsState × Counters)
    (h : run_cycle sources ik pfx st c = some out) :
    out.2.reads = c.reads + sources.length ∧
    out.2.failures = c.failures + numFetchErr sources := by
  simp only [run_cycle] at h
  cases hrs : run_sources sources ik pfx st c 0 with
  | none =>
    simp only [hrs] at h
    exact Option.noConfusion h
  | some p =>
    obtain ⟨st2, c2, total⟩ := p
    simp only [hrs] at h
    obtain rfl := Option.some.inj h
    obtain ⟨h1, h2, -⟩ := run_sources_counts sources ik pfx st c 0 (st2, c2, total) hrs
    simp only at h1 h2
    exact ⟨h1, h2⟩

theorem run_cycle_isolated (xs ys : List SourceFetch) (ik : List String) (pfx : String)
    (st : MetricsState) (c : Counters) :
    run_cycle (xs ++ .fetchErr :: ys) ik pfx st c =
      run_cycle (xs ++ ys) ik pfx st ⟨c.reads + 1, c.failures + 1, c.metricsTotal⟩ := by
  simp only [run_cycle, run_sources_append_fe]

theorem run_cycle_overwrite (sources : List SourceFetch) (ik : List String) (pfx : String)
    (st : MetricsState) (r f : ℕ) (t t2 : ℤ) :
    run_cycle sources ik pfx st ⟨r, f, t⟩ = run_cycle sources ik pfx st ⟨r, f, t2⟩ := by
  simp only [run_cycle, run_sources_total_irrel sources ik pfx st r f t t2 0]
  cases hrs : run_sources sources ik pfx st ⟨r, f, t2⟩ 0 with
  | none => rfl
  | some p =>
    obtain ⟨st2, c2, total⟩ := p
    simp

/-! ## Claim C5 -/

/-- C5: within one cycle, every source bumps the read counter and every fetch
failure bumps the failure counter; a failing source never prevents the
remaining sources from being processed (the cycle behaves exactly as the cycle
without that source, plus one read and one failure); the metrics-total gauge
is overwritten — the value it had before the cycle is irrelevant — with the sum
of the decoder/reconciler counts of the sources that succeeded this cycle, as
the concrete three-successes-one-failure run shows. -/
theorem C5_cycle_isolation_and_total :
    (∀ (sources : List SourceFetch) (ik : List String) (pfx : String) (st : MetricsState)
        (c : Counters) (out : MetricsState × Counters),
      run_cycle sources ik pfx st c = some out →
      out.2.reads = c.reads + sources.length ∧
      out.2.failures = c.failures + numFetchErr sources)
    ∧ (∀ (xs ys : List SourceFetch) (ik : List String) (pfx : String) (st : MetricsState)
        (c : Counters),
      run_cycle (xs ++ .fetchErr :: ys) ik pfx st c =
        run_cycle (xs ++ ys) ik pfx st ⟨c.reads + 1, c.failures + 1, c.metricsTotal⟩)
    ∧ (∀ (sources : List SourceFetch) (ik : List String) (pfx : String) (st : MetricsState)
        (r f : ℕ) (t t2 : ℤ),
      run_cycle sources ik pfx st ⟨r, f, t⟩ = run_cycle sources ik pfx st ⟨r, f, t2⟩)
    ∧ run_cycle [SourceFetch.ok "a\n1" "csv", SourceFetch.fetchErr,
        SourceFetch.ok "x" "toml", SourceFetch.ok "b\n2" "csv"] [] "" ⟨[], []⟩ ⟨10, 5, 99⟩ =
      some (⟨[("a", F64.finite 1), ("b", F64.finite 2)], ["a", "b"]⟩, ⟨14, 6, 2⟩) :=
  ⟨run_cycle_counts, run_cycle_isolated, run_cycle_overwrite, by decide⟩

/-- C5 witness: the counting conjunct applied to the concrete four-source run
(three attempted decodes, one fetch failure). -/
theorem C5_cycle_isolation_and_total_witness :
    (14 : ℕ) = 10 + [SourceFetch.ok "a\n1" "csv", SourceFetch.fetchErr,
      SourceFetch.ok "x" "toml", SourceFetch.ok "b\n2" "csv"].length ∧
    (6 : ℕ) = 5 + numFetchErr [SourceFetch.ok "a\n1" "csv", SourceFetch.fetchErr,
      SourceFetch.ok "x" "toml", SourceFetch.ok "b\n2" "csv"] :=
  C5_cycle_isolation_and_total.1
    [SourceFetch.ok "a\n1" "csv", SourceFetch.fetchErr,
     SourceFetch.ok "x" "toml", SourceFetch.ok "b\n2" "csv"] [] "" ⟨[], []⟩ ⟨10, 5, 99⟩
    (⟨[("a", F64.finite 1), ("b", F64.finite 2)], ["a", "b"]⟩, ⟨14, 6, 2⟩) (by decide)

/-! ## Claim C7 -/

/-- Helper: inserting a fresh key appends. -/
theorem insertKV_not_contains {α : Type} (m : List (String × α)) (k : String) (v : α)
    (h : k ∉ m.map Prod.fst) : insertKV m k v = m ++ [(k, v)] := by
  induction m with
  | nil => rfl
  | cons p rest ih =>
    obtain ⟨k0, v0⟩ := p
    simp only [List.map_cons, List.mem_cons] at h
    push_neg at h
    obtain ⟨h1, h2⟩ := h
    simp [insertKV, Ne.symm h1, ih h2]

/-- Helper: the sequence of keys paired by `zip` is a sublist of the header
fields. -/
theorem zip_fst_sublist : ∀ (l1 l2 : List String),
    (((l1.zip l2).map Prod.fst).Sublist l1)
  | [], _ => by simp
  | _ :: _, [] => by simp
  | a :: l1, b :: l2 => by
    simp only [List.zip_cons_cons, List.map_cons]
    exact List.Sublist.cons₂ a (zip_fst_sublist l1 l2)

/-- Helper: under duplicate-free headers (disjoint from the accumulated map),
the `filter_map`-and-collect loop of `process_csv` matches the spec-side row
decoding: it panics exactly when some cell parses to a non-finite float, and
otherwise appends exactly the entries of the parsable cells in pair order. -/
theorem buildCsvObj_spec : ∀ (pairs : List (String × String)) (m : List (String × Json)),
    (pairs.map Prod.fst).Nodup →
    (∀ k ∈ pairs.map Prod.fst, k ∉ m.map Prod.fst) →
    buildCsvObj pairs m =
      if pairs.any (fun p => ((parse_f64 p.2).map fun x => !x.is_finite).getD false) then
        none
      else
        some (m ++ pairs.filterMap fun p =>
          (parse_f64 p.2).map fun x => (p.1, Json.num (.f x)))
  | [], m, _, _ => by simp [buildCsvObj]
  | (h0, cell) :: rest, m, hnd, hdis => by
    rw [List.map_cons] at hnd
    obtain ⟨hfresh, hnd'⟩ := List.nodup_cons.mp hnd
    have hdis' : ∀ k ∈ rest.map Prod.fst, k ∉ m.map Prod.fst := fun k hk =>
      hdis k (by simp [hk])
    have h0m : h0 ∉ m.map Prod.fst := hdis h0 (by simp)
    cases hp : parse_f64 cell with
    | none =>
      simp only [buildCsvObj, hp, buildCsvObj_spec rest m hnd' hdis', List.any_cons,
        List.filterMap_cons, Option.map_none', Option.getD_none, Bool.false_or]
    | some x =>
      cases hfin : x.is_finite with
      | false =>
        simp only [buildCsvObj, hp, jnumber_from_f64, hfin, List.any_cons,
          Option.map_some', Option.getD_some, Bool.not_false, Bool.true_or, if_true]
        simp
      | true =>
        have hins : insertKV m h0 (Json.num (.f x)) = m ++ [(h0, Json.num (.f x))] :=
          insertKV_not_contains m h0 _ h0m
        have hdis2 : ∀ k ∈ rest.map Prod.fst,
            k ∉ (m ++ [(h0, Json.num (.f x))]).map Prod.fst := by
          intro k hk
          simp only [List.map_append, List.mem_append]
          push_neg
          refine ⟨hdis' k hk, ?_⟩
          simp only [List.map_cons, List.map_nil, List.mem_singleton]
          intro hkh
          exact hfresh (hkh ▸ hk)
        have ih := buildCsvObj_spec rest (m ++ [(h0, Json.num (.f x))]) hnd' hdis2
        simp only [buildCsvObj, hp, jnumber_from_f64, hfin, if_true, hins, ih,
          List.any_cons, Option.map_some', Option.getD_some, Bool.not_true,
          Bool.false_or, List.filterMap_cons, List.append_assoc, List.singleton_append]

/-- C7 counterexample: the cell `"NaN"` parses as a 64-bit float, yet it does
not become a flat-map entry keyed by its header — the decoder panics instead
(`Number::from_f64(num).unwrap()`), so the claim's "every parsing cell becomes
an entry" fails on the code. -/
theorem C7_counterexample_nan_cell :
    (parse_f64 "NaN").isSome = true ∧
    csvDecodeRows ["a", "NaN"] = CsvDecode.panicked :=
  ⟨by decide, by decide⟩

/-- C7 (amended): the CSV decoder uses the first record as headers and only
the second record as values — all further records are ignored; no header row,
no first data row, or a first data row whose field count differs from the
header's (the `csv` crate's `UnequalLengths` error) produces no metrics;
otherwise, under duplicate-free headers, each (header, cell) pair whose cell
parses to a *finite* 64-bit float becomes a flat-map entry keyed by the
header, a cell parsing to a non-finite float (NaN/inf) panics the process,
and cells that fail to parse are silently dropped.  (With duplicate headers
the `HashMap` keeps the last write, as the final concrete conjunct shows.) -/
theorem C7_csv_single_row_amended :
    (∀ (h r : String) (rest : List String),
      csvDecodeRows (h :: r :: rest) = csvDecodeRows [h, r])
    ∧ csvDecodeRows [] = CsvDecode.rowErr
    ∧ (∀ h : String, csvDecodeRows [h] = CsvDecode.rowErr)
    ∧ (∀ h r : String, (csvFields r).length ≠ (csvFields h).length →
        csvDecodeRows [h, r] = CsvDecode.rowErr)
    ∧ (∀ h r : String, (csvFields h).Nodup →
        (csvFields r).length = (csvFields h).length →
        csvDecodeRows [h, r] = csv_row_spec ((csvFields h).zip (csvFields r)))
    ∧ csvDecodeRows ["a,b", "1"] = CsvDecode.rowErr
    ∧ csvDecodeRows ["a,a", "1,2"] =
        CsvDecode.ok [("a", Json.num (JNumber.f (F64.finite 2)))] := by
  refine ⟨fun h r rest => rfl, rfl, fun h => rfl, fun h r hne => ?_,
    fun h r hnd hlen => ?_, by decide, by decide⟩
  · simp only [csvDecodeRows]
    rw [if_neg hne]
  · have hnd2 : ((((csvFields h).zip (csvFields r)).map Prod.fst)).Nodup :=
      hnd.sublist (zip_fst_sublist (csvFields h) (csvFields r))
    simp only [csvDecodeRows]
    rw [if_pos hlen, buildCsvObj_spec _ [] hnd2 (by simp)]
    simp only [csv_row_spec, List.nil_append]
    by_cases hany : (((csvFields h).zip (csvFields r)).any fun p =>
        ((parse_f64 p.2).map fun x => !x.is_finite).getD false) = true
    · simp [hany]
    · simp [hany]

/-- C7 witness: the refinement conjunct applied to the concrete two-column CSV
with headers `a,b` and data row `1,2`. -/
theorem C7_csv_single_row_amended_witness :
    (csvFields "a,b").Nodup ∧
    (csvFields "1,2").length = (csvFields "a,b").length ∧
    csvDecodeRows ["a,b", "1,2"] = csv_row_spec ((csvFields "a,b").zip (csvFields "1,2")) :=
  ⟨by decide, by decide,
   C7_csv_single_row_amended.2.2.2.2.1 "a,b" "1,2" (by decide) (by decide)⟩
